import Mathlib

/-!
Verification development for the booster-skeleton text-to-binary conversion
layer (`boosterskel.c`).  The C source is shallowly embedded in Lean:

* machine integers are modelled as `Int`/`Nat` with explicit reduction
  modulo `2 ^ w` (`toUnsigned`/`toSigned`) at the points where the C code
  converts or overflows;
* the in-memory representation of a multi-byte integer is made explicit
  as a byte list (`memBytes`), parametrised by the host byte order
  (`Endian`), so that `htonl`/`htons`/`mirrorBytes` can be translated
  literally;
* C `double`/`float` **values** (parsers, `linearTransform`,
  `julian2unixtime`) are modelled as exact rationals (`Rat`), with the
  IEEE non-finite values that a `%f`/`%lf` scan can produce carried by
  explicit infinity/NaN constructors; for the binary encoder, whose
  float/double cases only move the 4/8 raw bytes of the IEEE object
  representation, the payload is modelled as the 32/64-bit bit pattern
  (a `Nat`), since the encoder never interprets it;
* C strings are lists of non-zero bytes (`List Nat`);
* functions that can call `die(...)`/`exit(1)` return `Option`, with
  `none` meaning process abort.

Accordingly there are two views of the C `Field` struct: `Field` (encoder
view, bit-pattern payloads, consumed by `writeField`) and `FieldV` (value
view, rational payloads, produced by the parsing primitives and mutated by
the transforms).
-/

namespace Booster

/-! ## Machine-integer and byte-order primitives -/

/-- Host byte order (`__BYTE_ORDER` in the C source). -/
inductive Endian where
  | big
  | little
deriving DecidableEq

/-- Conversion of an `Int` to the `w`-bit unsigned value with the same
two's-complement bit pattern (what C does when an `intN_t` is converted
to `uintN_t` or truncated to `N` bits). -/
def toUnsigned (w : Nat) (v : Int) : Nat := (v % ((2 : Int) ^ w)).toNat

/-- Read a `w`-bit pattern back as a two's-complement signed value. -/
def toSigned (w : Nat) (n : Nat) : Int :=
  if n < 2 ^ (w - 1) then (n : Int) else (n : Int) - 2 ^ w

/-- `k` bytes of `v`, most significant first (network / big-endian order). -/
def beBytes : Nat → Nat → List Nat
  | 0, _ => []
  | k + 1, v => beBytes k (v / 256) ++ [v % 256]

/-- Value of a byte list read most-significant-byte first. -/
def beToNat (bs : List Nat) : Nat := bs.foldl (fun a b => a * 256 + b) 0

/-- The bytes of a `k`-byte integer object as laid out in host memory:
big-endian order on a big-endian host, least significant byte first on a
little-endian host. -/
def memBytes (e : Endian) (k : Nat) (v : Nat) : List Nat :=
  match e with
  | .big => beBytes k v
  | .little => (beBytes k v).reverse

/-- 32-bit byte swap (the value whose memory image is the reversed image
of `v`). -/
def byteSwap32 (v : Nat) : Nat := beToNat ((beBytes 4 v).reverse)

/-- 16-bit byte swap. -/
def byteSwap16 (v : Nat) : Nat := beToNat ((beBytes 2 v).reverse)

/-- `htonl`: convert a host 32-bit value to network byte order (identity
on a big-endian host, byte swap on a little-endian host).  The argument
is first reduced to 32 bits as C does for the `uint32_t` parameter. -/
def htonl (e : Endian) (v : Nat) : Nat :=
  match e with
  | .big => v % 4294967296
  | .little => byteSwap32 (v % 4294967296)

/-- `htons`: 16-bit analogue of `htonl`. -/
def htons (e : Endian) (v : Nat) : Nat :=
  match e with
  | .big => v % 65536
  | .little => byteSwap16 (v % 65536)

/-- `mirrorBytes` from `boosterskel.c`: reverse a memory buffer in place,
except that on a big-endian host it returns immediately and leaves the
buffer untouched. -/
def mirrorBytes (e : Endian) (mem : List Nat) : List Nat :=
  match e with
  | .big => mem
  | .little => mem.reverse

/-! ## Rational models of the C `double` helpers -/

/-- C truncation toward zero of a real value (`(int)trunc(x)` or a
float-to-int cast), on the exact-rational model of `double`. -/
def ratTrunc (q : Rat) : Int := if 0 ≤ q then ⌊q⌋ else ⌈q⌉

/-- The file-local `round` of `boosterskel.c`: `floor(val + 0.5)`. -/
def croundQ (x : Rat) : Int := ⌊x + 1 / 2⌋

/-! ## Encoder view of the `Field` struct

Payloads carry what the binary encoder actually consumes: two's-complement
values for the integer tags, the raw 32/64-bit IEEE bit pattern for
`VAL_FLOAT`/`VAL_DOUBLE` (the encoder only copies and possibly mirrors
those bytes), the byte string for `VAL_TEXT`, the rational `c_float` value
for `VAL_JDATE` (whose encoder does arithmetic on the value), and the
`time_t` for `VAL_DATE`/`VAL_DATETIME`. -/
inductive Field where
  | vNull
  | vBool (b : Int)
  | vChar (c : Int)
  | vShort (n : Int)
  | vInt (n : Int)
  | vBigint (n : Int)
  | vFloat (bits : Nat)
  | vDouble (bits : Nat)
  | vText (s : List Nat)
  | vJdate (yr : Rat)
  | vDate (t : Int)
  | vDatetime (t : Int)
deriving DecidableEq

/-- `strlen` on the byte-list model of a C string. -/
def cstrlen (s : List Nat) : Nat := (s.takeWhile (fun c => c != 0)).length

/-- `writeBoolean`: the literal head `"\0\0\0\001"` followed by the raw
`c_int8` byte.  (Also used by the encoder for `VAL_CHAR`.) -/
def writeBoolean (b : Int) : List Nat := [0, 0, 0, 1] ++ [toUnsigned 8 b]

/-- `writeShort`: literal head `"\0\0\0\002"`, then the memory image of
`htons(c_int16)`. -/
def writeShort (e : Endian) (n : Int) : List Nat :=
  [0, 0, 0, 2] ++ memBytes e 2 (htons e (toUnsigned 16 n))

/-- `writeInteger`: literal head `"\0\0\0\004"`, then the memory image of
`htonl(c_int32)`. -/
def writeInteger (e : Endian) (n : Int) : List Nat :=
  [0, 0, 0, 4] ++ memBytes e 4 (htonl e (toUnsigned 32 n))

/-- `writeBigint`: `htonl(8)` size word, then the `mirrorBytes`-processed
memory image of the `int64_t` value. -/
def writeBigint (e : Endian) (n : Int) : List Nat :=
  memBytes e 4 (htonl e 8) ++ mirrorBytes e (memBytes e 8 (toUnsigned 64 n))

/-- `writeFloat`: `htonl(4)` size word, then the mirrored memory image of
the 4 bytes of the `float` object (its IEEE bit pattern). -/
def writeFloat (e : Endian) (bits : Nat) : List Nat :=
  memBytes e 4 (htonl e 4) ++ mirrorBytes e (memBytes e 4 bits)

/-- `writeDouble`: `htonl(8)` size word, then the mirrored memory image of
the 8 bytes of the `double` object. -/
def writeDouble (e : Endian) (bits : Nat) : List Nat :=
  memBytes e 4 (htonl e 8) ++ mirrorBytes e (memBytes e 8 bits)

/-- `writeText`: `htonl(strlen(c_ptr))` size word, then the `strlen` many
string bytes, no terminator. -/
def writeText (e : Endian) (s : List Nat) : List Nat :=
  memBytes e 4 (htonl e (cstrlen s)) ++ s.takeWhile (fun c => c != 0)

/-- `writeJdate`: size word `htonl(4)`, then
`htonl((int32_t)(round((c_float - 2000) * 365.25)))`. -/
def writeJdate (e : Endian) (q : Rat) : List Nat :=
  memBytes e 4 (htonl e 4) ++
    memBytes e 4 (htonl e (toUnsigned 32 (croundQ ((q - 2000) * (1461 / 4)))))

/-- `writeDate`: size word `htonl(4)`, then
`htonl((int32_t)((time - PqEpoch) / 86400))` (C division truncates toward
zero). -/
def writeDate (e : Endian) (pq t : Int) : List Nat :=
  memBytes e 4 (htonl e 4) ++
    memBytes e 4 (htonl e (toUnsigned 32 (Int.tdiv (t - pq) 86400)))

/-- `writeDatetime` (with `HAVE_INT64_TIMESTAMP`): size word `htonl(8)`,
then the mirrored memory image of `(time - PqEpoch) * 1000000` as an
`int64_t`. -/
def writeDatetime (e : Endian) (pq t : Int) : List Nat :=
  memBytes e 4 (htonl e 8) ++
    mirrorBytes e (memBytes e 8 (toUnsigned 64 ((t - pq) * 1000000)))

/-- `writeField`: dispatch over the tag; `VAL_NULL` writes `htonl(-1)` and
nothing else; `VAL_CHAR` shares `writeBoolean` as in the source. -/
def writeField (e : Endian) (pq : Int) : Field → List Nat
  | .vNull => memBytes e 4 (htonl e (toUnsigned 32 (-1)))
  | .vBool b => writeBoolean b
  | .vChar c => writeBoolean c
  | .vShort n => writeShort e n
  | .vInt n => writeInteger e n
  | .vBigint n => writeBigint e n
  | .vFloat bits => writeFloat e bits
  | .vDouble bits => writeDouble e bits
  | .vText s => writeText e s
  | .vJdate q => writeJdate e q
  | .vDate t => writeDate e pq t
  | .vDatetime t => writeDatetime e pq t

/-- `writeTuple`: 2-byte `htons` field count, then the `numFields` field
encodings concatenated in order. -/
def writeTuple (e : Endian) (pq : Int) (fields : List Field) (numFields : Nat) : List Nat :=
  memBytes e 2 (htons e numFields) ++
    ((fields.take numFields).map (writeField e pq)).flatten

/-- The 11-byte `PGCOPY` magic signature `"PGCOPY\n\377\r\n\0"`. -/
def pgcopyMagic : List Nat := [80, 71, 67, 79, 80, 89, 10, 255, 13, 10, 0]

/-- `writeHeader`: the magic signature, then the raw memory bytes of the
`int32_t` constants `flags = 0` and `headerLength = 0` (written without
`htonl`; all-zero either way). -/
def writeHeader (e : Endian) : List Nat :=
  pgcopyMagic ++ memBytes e 4 0 ++ memBytes e 4 0

/-! ## Big-endian reference form of the encoder

`specBE_writeField` follows the wording of the specification's wire-format
section, with **every** multi-byte quantity in big-endian (network) order
and no host dependence.  The refinement lemma below shows the encoder
equals it on every host. -/

/-- Host-independent big-endian field encoding written from the wire-format
description. -/
def specBE_writeField (pq : Int) : Field → List Nat
  | .vNull => beBytes 4 (toUnsigned 32 (-1))
  | .vBool b => [0, 0, 0, 1, toUnsigned 8 b]
  | .vChar c => [0, 0, 0, 1, toUnsigned 8 c]
  | .vShort n => [0, 0, 0, 2] ++ beBytes 2 (toUnsigned 16 n)
  | .vInt n => [0, 0, 0, 4] ++ beBytes 4 (toUnsigned 32 n)
  | .vBigint n => [0, 0, 0, 8] ++ beBytes 8 (toUnsigned 64 n)
  | .vFloat bits => [0, 0, 0, 4] ++ beBytes 4 bits
  | .vDouble bits => [0, 0, 0, 8] ++ beBytes 8 bits
  | .vText s => beBytes 4 (cstrlen s) ++ s.takeWhile (fun c => c != 0)
  | .vJdate q => [0, 0, 0, 4] ++ beBytes 4 (toUnsigned 32 (croundQ ((q - 2000) * (1461 / 4))))
  | .vDate t => [0, 0, 0, 4] ++ beBytes 4 (toUnsigned 32 (Int.tdiv (t - pq) 86400))
  | .vDatetime t => [0, 0, 0, 8] ++ beBytes 8 (toUnsigned 64 ((t - pq) * 1000000))

/-- Host-independent big-endian row encoding. -/
def specBE_writeTuple (pq : Int) (fields : List Field) (numFields : Nat) : List Nat :=
  beBytes 2 numFields ++ ((fields.take numFields).map (specBE_writeField pq)).flatten

/-- Host-independent stream header. -/
def specBE_writeHeader : List Nat := pgcopyMagic ++ [0, 0, 0, 0] ++ [0, 0, 0, 0]

/-! ## Reference reader for the wire format -/

/-- The `valType` enumeration of `boosterskel.h` (the translation unit in
`gavo/resources/src` also uses a `VAL_BIGINT` tag for `writeBigint`; it is
included here in source order next to `VAL_INT`). -/
inductive ValType where
  | VAL_NULL
  | VAL_BOOL
  | VAL_CHAR
  | VAL_SHORT
  | VAL_INT
  | VAL_BIGINT
  | VAL_FLOAT
  | VAL_DOUBLE
  | VAL_TEXT
  | VAL_JDATE
  | VAL_DATE
  | VAL_DATETIME
deriving DecidableEq

/-- The tag (`field->type`) of an encoder-view field. -/
def tagOf : Field → ValType
  | .vNull => .VAL_NULL
  | .vBool _ => .VAL_BOOL
  | .vChar _ => .VAL_CHAR
  | .vShort _ => .VAL_SHORT
  | .vInt _ => .VAL_INT
  | .vBigint _ => .VAL_BIGINT
  | .vFloat _ => .VAL_FLOAT
  | .vDouble _ => .VAL_DOUBLE
  | .vText _ => .VAL_TEXT
  | .vJdate _ => .VAL_JDATE
  | .vDate _ => .VAL_DATE
  | .vDatetime _ => .VAL_DATETIME

/-- Well-formedness of an encoder-view field: each payload lies in the
range of the C member that holds it (`int8_t`/`int16_t`/`int32_t`/
`int64_t`, 32/64-bit pattern, NUL-free byte string of `int`-expressible
length, microseconds-since-epoch within `int64_t`). -/
def wfB (pq : Int) : Field → Bool
  | .vNull => true
  | .vBool b => decide (-(2 ^ 7 : Int) ≤ b ∧ b < 2 ^ 7)
  | .vChar c => decide (-(2 ^ 7 : Int) ≤ c ∧ c < 2 ^ 7)
  | .vShort n => decide (-(2 ^ 15 : Int) ≤ n ∧ n < 2 ^ 15)
  | .vInt n => decide (-(2 ^ 31 : Int) ≤ n ∧ n < 2 ^ 31)
  | .vBigint n => decide (-(2 ^ 63 : Int) ≤ n ∧ n < 2 ^ 63)
  | .vFloat bits => decide (bits < 2 ^ 32)
  | .vDouble bits => decide (bits < 2 ^ 64)
  | .vText s => s.all (fun c => decide (0 < c ∧ c < 256)) && decide ((s.length : Int) < 2 ^ 31)
  | .vJdate _ => true
  | .vDate _ => true
  | .vDatetime t => decide (-(2 ^ 63 : Int) ≤ (t - pq) * 1000000 ∧ (t - pq) * 1000000 < 2 ^ 63)

/-- Reference interpretation of a payload of a column of type `t`
(`VAL_JDATE` columns cannot be decoded back to the `c_float` year value,
and `VAL_NULL` is signalled by the length prefix, not by a payload). -/
def decodePayload (pq : Int) (t : ValType) (payload : List Nat) : Option Field :=
  match t with
  | .VAL_NULL => none
  | .VAL_BOOL =>
    if payload.length = 1 then some (.vBool (toSigned 8 (beToNat payload))) else none
  | .VAL_CHAR =>
    if payload.length = 1 then some (.vChar (toSigned 8 (beToNat payload))) else none
  | .VAL_SHORT =>
    if payload.length = 2 then some (.vShort (toSigned 16 (beToNat payload))) else none
  | .VAL_INT =>
    if payload.length = 4 then some (.vInt (toSigned 32 (beToNat payload))) else none
  | .VAL_BIGINT =>
    if payload.length = 8 then some (.vBigint (toSigned 64 (beToNat payload))) else none
  | .VAL_FLOAT =>
    if payload.length = 4 then some (.vFloat (beToNat payload)) else none
  | .VAL_DOUBLE =>
    if payload.length = 8 then some (.vDouble (beToNat payload)) else none
  | .VAL_TEXT => some (.vText payload)
  | .VAL_JDATE => none
  | .VAL_DATE =>
    if payload.length = 4 then some (.vDate (pq + 86400 * toSigned 32 (beToNat payload))) else none
  | .VAL_DATETIME =>
    if payload.length = 8 then
      some (.vDatetime (pq + (toSigned 64 (beToNat payload)) / 1000000))
    else none

/-- Reference reader for one encoded field of a column of type `t`: a
4-byte big-endian signed length word, `-1` meaning NULL with no payload,
otherwise exactly that many payload bytes interpreted per `t`. -/
def decodeField (pq : Int) (t : ValType) (bs : List Nat) : Option Field :=
  if bs.length < 4 then none
  else if toSigned 32 (beToNat (bs.take 4)) = -1 then
    (if bs.drop 4 = [] then some .vNull else none)
  else if ((bs.drop 4).length : Int) ≠ toSigned 32 (beToNat (bs.take 4)) then none
  else decodePayload pq t (bs.drop 4)

/-! ## Value view of the `Field` struct, for the parsing primitives and
the in-place transforms.  Finite `float`/`double` payloads are exact
rationals; the IEEE non-finite values a `%f`/`%lf` scan can produce
(infinities, NaN) are carried by the explicit `floatNF`/`doubleNF`
constructors, since no rational represents them.  `textV` also carries
the struct's `length` member, which `parseString` sets. -/

/-- IEEE value class for a non-finite C `float`/`double`. -/
inductive NonFinite where
  | posInf
  | negInf
  | nanVal
deriving DecidableEq

inductive FieldV where
  | nullV
  | boolV (b : Int)
  | charV (c : Int)
  | shortV (n : Int)
  | intV (n : Int)
  | bigintV (n : Int)
  | floatV (v : Rat)
  | doubleV (v : Rat)
  | textV (s : List Nat) (len : Int)
  | jdateV (v : Rat)
  | dateV (t : Int)
  | datetimeV (t : Int)
  | floatNF (x : NonFinite)
  | doubleNF (x : NonFinite)
deriving DecidableEq

/-! ## Character classes and trimming -/

/-- C `isspace` in the POSIX locale: space, `\t`, `\n`, `\v`, `\f`, `\r`. -/
def isspaceB (c : Nat) : Bool := c == 32 || (9 ≤ c && c ≤ 13)

/-- C `isdigit`. -/
def isdigitB (c : Nat) : Bool := 48 ≤ c && c ≤ 57

/-- The trailing-whitespace strip of `stripWhitespace` (the phase after
the leading skip): remove the maximal whitespace suffix. -/
def trimRightC : List Nat → List Nat
  | [] => []
  | c :: t => if trimRightC t = [] && isspaceB c then [] else c :: trimRightC t

/-- `stripWhitespace` from `boosterskel.c`: skip leading whitespace; if
nothing remains the result is empty, otherwise also strip trailing
whitespace. -/
def stripWhitespaceC (s : List Nat) : List Nat :=
  let s1 := s.dropWhile isspaceB
  if s1 = [] then [] else trimRightC s1

/-- `copyString`: copy `len` bytes starting at `start` (stopping at the
string end), NUL-terminate, and strip surrounding whitespace; the model
returns the resulting buffer contents. -/
def copyString (src : List Nat) (start len : Nat) : List Nat :=
  stripWhitespaceC ((src.drop start).take len)

/-- `isWhitespaceOnly`: every byte of the string is whitespace. -/
def isWhitespaceOnly (s : List Nat) : Bool := s.all isspaceB

/-! ## `sscanf` numeric conversion models (decimal forms) -/

/-- Value of a digit string. -/
def digitsVal (ds : List Nat) : Nat := ds.foldl (fun a d => a * 10 + (d - 48)) 0

/-- Is the first byte a decimal digit? -/
def headDigitB : List Nat → Bool
  | c :: _ => isdigitB c
  | [] => false

/-- Skip one optional leading `+`/`-`. -/
def skipSign : List Nat → List Nat
  | 43 :: r => r
  | 45 :: r => r
  | r => r

/-- `-1` for a leading `-`, else `1`. -/
def signOf : List Nat → Int
  | 45 :: _ => -1
  | _ => 1

/-- Greedy digit run: `none` on no digit (matching failure), else its
value. -/
def digitsOpt (r : List Nat) : Option Nat :=
  let ds := r.takeWhile isdigitB
  if ds = [] then none else some (digitsVal ds)

/-- `sscanf(s, "%d", ...)` (also `%hd`, `%Ld`): skip whitespace, optional
sign, then a digit run; fails exactly when no digit follows.  Trailing
bytes are ignored, as `sscanf` ignores them. -/
def sscanf_d (s : List Nat) : Option Int :=
  let s1 := s.dropWhile isspaceB
  match digitsOpt (skipSign s1) with
  | some n => some (signOf s1 * n)
  | none => none

/-- ASCII lower-casing of one byte (`tolower` on the letters). -/
def lowerB (c : Nat) : Nat := if 65 ≤ c && c ≤ 90 then c + 32 else c

/-- C `isxdigit`. -/
def ishexB (c : Nat) : Bool := isdigitB c || (97 ≤ lowerB c && lowerB c ≤ 102)

/-- A character of a NaN `n-char-sequence`: digits, letters, underscore. -/
def isNanCharB (c : Nat) : Bool :=
  isdigitB c || (97 ≤ lowerB c && lowerB c ≤ 122) || c = 95

/-- Value of one hexadecimal digit. -/
def hexDigitVal (c : Nat) : Nat := if isdigitB c then c - 48 else lowerB c - 87

/-- Value of a hexadecimal digit string. -/
def hexDigitsVal (ds : List Nat) : Nat := ds.foldl (fun a c => a * 16 + hexDigitVal c) 0

/-- Length of the case-insensitive common prefix of the input with a
pattern (used for `infinity` and `nan`). -/
def matchCI : List Nat → List Nat → Nat
  | p :: ps, c :: cs => if lowerB c = p then 1 + matchCI ps cs else 0
  | _, _ => 0

/-- Was there a leading minus sign (checked before `skipSign`)? -/
def isNegSign : List Nat → Bool
  | 45 :: _ => true
  | _ => false

/-- `infinity` in lower-case bytes. -/
def infinityPat : List Nat := [105, 110, 102, 105, 110, 105, 116, 121]

/-- `nan` in lower-case bytes. -/
def nanPat : List Nat := [110, 97, 110]

/-- After `nan`: either no `(`, or a parenthesised `n-char-sequence` that
is properly closed — under the fscanf input-item rule an unclosed
parenthesis is a matching failure. -/
def nanParenOK (rest : List Nat) : Bool :=
  match rest with
  | 40 :: t2 =>
    match t2.drop (t2.takeWhile isNanCharB).length with
    | 41 :: _ => true
    | _ => false
  | _ => true

/-- One scanned C `float`/`double`: a finite exact rational, an infinity,
or a NaN. -/
inductive FScan where
  | fin (v : Rat)
  | pinf
  | ninf
  | nanv
deriving DecidableEq

/-- Split an optional fraction part: a `.` followed by the greedy digit
run of the given class, returning the run and the remainder. -/
def fracSplit (dig : Nat → Bool) (t1 : List Nat) : Option (List Nat × List Nat) :=
  match t1 with
  | 46 :: u => some (u.takeWhile dig, u.drop (u.takeWhile dig).length)
  | _ => none

/-- Once an `e`/`E` (resp. `p`/`P`) exponent marker has been consumed, at
least one digit must follow its optional sign or the whole conversion is
a matching failure (fscanf cannot back the consumed marker out); `true`
when no marker is present. -/
def expDigitsOK (marker : Nat) (t : List Nat) : Bool :=
  match t with
  | e :: u =>
    if lowerB e = marker then !((skipSign u).takeWhile isdigitB).isEmpty else true
  | [] => true

/-- Value of an optional exponent part with the given marker and base
(`e`/10 for decimal, `p`/2 for hexadecimal). -/
def expValApply (marker : Nat) (base : Rat) (t : List Nat) (m : Rat) : Rat :=
  match t with
  | e :: u =>
    if lowerB e = marker then
      (if isNegSign u then m / base ^ digitsVal ((skipSign u).takeWhile isdigitB)
       else m * base ^ digitsVal ((skipSign u).takeWhile isdigitB))
    else m
  | [] => m

/-- Decimal significand with optional fraction and exponent — the
`strtod` decimal form, under the fscanf input-item rule: no digit at all,
or a consumed `e` without exponent digits, is a matching failure. -/
def decScan (r : List Nat) : Option FScan :=
  let d1 := r.takeWhile isdigitB
  let t1 := r.drop d1.length
  match fracSplit isdigitB t1 with
  | some (d2, t2) =>
    if (d1.isEmpty && d2.isEmpty) || !expDigitsOK 101 t2 then none
    else some (.fin (expValApply 101 10 t2
        ((digitsVal d1 : Rat) + (digitsVal d2 : Rat) / 10 ^ d2.length)))
  | none =>
    if d1.isEmpty || !expDigitsOK 101 t1 then none
    else some (.fin (expValApply 101 10 t1 (digitsVal d1)))

/-- Acceptance condition of `decScan`. -/
def decOKB (r : List Nat) : Bool :=
  let d1 := r.takeWhile isdigitB
  let t1 := r.drop d1.length
  match fracSplit isdigitB t1 with
  | some (d2, t2) => !(d1.isEmpty && d2.isEmpty) && expDigitsOK 101 t2
  | none => !d1.isEmpty && expDigitsOK 101 t1

/-- Hexadecimal significand (the input after `0x`/`0X`): hex digits with
optional fraction and binary exponent.  Hex floats are dyadic rationals,
hence exact in the model. -/
def hexScan (t : List Nat) : Option FScan :=
  let h1 := t.takeWhile ishexB
  let t1 := t.drop h1.length
  match fracSplit ishexB t1 with
  | some (h2, t2) =>
    if (h1.isEmpty && h2.isEmpty) || !expDigitsOK 112 t2 then none
    else some (.fin (expValApply 112 2 t2
        ((hexDigitsVal h1 : Rat) + (hexDigitsVal h2 : Rat) / 16 ^ h2.length)))
  | none =>
    if h1.isEmpty || !expDigitsOK 112 t1 then none
    else some (.fin (expValApply 112 2 t1 (hexDigitsVal h1)))

/-- Acceptance condition of `hexScan`. -/
def hexOKB (t : List Nat) : Bool :=
  let h1 := t.takeWhile ishexB
  let t1 := t.drop h1.length
  match fracSplit ishexB t1 with
  | some (h2, t2) => !(h1.isEmpty && h2.isEmpty) && expDigitsOK 112 t2
  | none => !h1.isEmpty && expDigitsOK 112 t1

/-- Is the head `x`/`X`? -/
def headIsX : List Nat → Bool
  | x :: _ => lowerB x = 120
  | [] => false

/-- A complete infinity at the head: exactly `inf` (the 4th input char
breaks off) or the full `infinity`, case-insensitive; any other stop
leaves a consumed prefix that is not a match — matching failure. -/
def infOK (r : List Nat) : Bool :=
  matchCI infinityPat r = 3 || matchCI infinityPat r = 8

/-- A complete NaN at the head: `nan`, case-insensitive, with either no
`(` following or a properly closed parenthesised char-sequence. -/
def nanOK (r : List Nat) : Bool :=
  matchCI nanPat r = 3 && nanParenOK (r.drop 3)

/-- The full C99 `%f`/`%lf` subject sequence after the optional sign: a
decimal number, a hexadecimal number (`0x…`), an infinity (`inf` or
`infinity`, case-insensitive), or a NaN (`nan`, optionally with a
parenthesised char-sequence).  Per the fscanf input-item rule the longest
prefix extendable to a match must itself be a complete match, so a bare
or truncated `inf`/`infinity`/`nan` prefix, `0x` without a following hex
digit, or an exponent marker without digits is a matching failure. -/
def floatBody (r : List Nat) : Option FScan :=
  match r with
  | [] => none
  | c :: t =>
    if lowerB c = 105 then (if infOK (c :: t) then some .pinf else none)
    else if lowerB c = 110 then (if nanOK (c :: t) then some .nanv else none)
    else if c = 48 && headIsX t then hexScan t.tail
    else decScan r

/-- Acceptance condition of `floatBody`: the sign-stripped text begins
with a complete `%f`/`%lf` subject sequence. -/
def floatStartsOK (r : List Nat) : Bool :=
  match r with
  | [] => false
  | c :: t =>
    if lowerB c = 105 then infOK (c :: t)
    else if lowerB c = 110 then nanOK (c :: t)
    else if c = 48 && headIsX t then hexOKB t.tail
    else decOKB r

/-- Propagate the optional leading minus into the scanned value. -/
def applySign (neg : Bool) : FScan → FScan
  | .fin v => .fin (if neg then -v else v)
  | .pinf => if neg then .ninf else .pinf
  | .ninf => if neg then .pinf else .ninf
  | .nanv => .nanv

/-- `sscanf(s, "%f", ...)` / `"%lf"`: skip whitespace and an optional
sign, then match one full C99 floating subject sequence (decimal, hex,
infinity, or NaN); fails exactly when none is present. -/
def sscanf_f (s : List Nat) : Option FScan :=
  let s1 := s.dropWhile isspaceB
  match floatBody (skipSign s1) with
  | some fs => some (applySign (isNegSign s1) fs)
  | none => none

/-- Does the text start (after an optional sign) with a digit?  This is
exactly the success condition of `%d` conversion. -/
def hasIntNumeral (s : List Nat) : Bool := headDigitB (skipSign s)

/-- After the optional sign: a complete floating subject sequence at the
head.  This is exactly the success condition of `%f`/`%lf` conversion. -/
def floatSubjectOK (s : List Nat) : Bool := floatStartsOK (skipSign s)

/-- The store of a scanned value into `field->val.c_float`. -/
def floatFieldOfScan : FScan → FieldV
  | .fin v => .floatV v
  | .pinf => .floatNF .posInf
  | .ninf => .floatNF .negInf
  | .nanv => .floatNF .nanVal

/-- The store of a scanned value into `field->val.c_double`. -/
def doubleFieldOfScan : FScan → FieldV
  | .fin v => .doubleV v
  | .pinf => .doubleNF .posInf
  | .ninf => .doubleNF .negInf
  | .nanv => .doubleNF .nanVal

/-! ## The parsing primitives -/

/-- `parseInt`: trim the substring, set `VAL_INT`, scan `%d`; on scan
failure, whitespace-only (empty after the trim) input becomes `NULL` and
anything else aborts the process (`none`). -/
def parseInt (src : List Nat) (start len : Nat) : Option FieldV :=
  let input := copyString src start len
  match sscanf_d input with
  | some n => some (.intV n)
  | none => if isWhitespaceOnly input then some .nullV else none

/-- `parseBigint`: as `parseInt` with `%Ld` into an `int64_t`. -/
def parseBigint (src : List Nat) (start len : Nat) : Option FieldV :=
  let input := copyString src start len
  match sscanf_d input with
  | some n => some (.bigintV n)
  | none => if isWhitespaceOnly input then some .nullV else none

/-- `parseDouble`: as `parseInt` with `%lf`. -/
def parseDouble (src : List Nat) (start len : Nat) : Option FieldV :=
  let input := copyString src start len
  match sscanf_f input with
  | some fs => some (doubleFieldOfScan fs)
  | none => if isWhitespaceOnly input then some .nullV else none

/-- `parseFloat`: as `parseInt` with `%f`. -/
def parseFloat (src : List Nat) (start len : Nat) : Option FieldV :=
  let input := copyString src start len
  match sscanf_f input with
  | some fs => some (floatFieldOfScan fs)
  | none => if isWhitespaceOnly input then some .nullV else none

/-- `parseFloatWithMagicNULL`: compare the trimmed text against the magic
sentinel first; a match is `NULL`, otherwise proceed as `parseFloat`. -/
def parseFloatWithMagicNULL (src : List Nat) (start len : Nat) (magicVal : List Nat) :
    Option FieldV :=
  let input := copyString src start len
  if input = magicVal then some .nullV
  else
    match sscanf_f input with
    | some fs => some (floatFieldOfScan fs)
    | none => if isWhitespaceOnly input then some .nullV else none

/-- `parseString`: trim into the caller's buffer, set the `length` member
to the **extraction length argument** `len`, tag `VAL_TEXT`. -/
def parseString (src : List Nat) (start len : Nat) : FieldV :=
  .textV (copyString src start len) (len : Int)

/-- `parseStringWithMagicNULL`: as `parseString`, then re-tag to `NULL`
when the trimmed buffer equals the magic sentinel. -/
def parseStringWithMagicNULL (src : List Nat) (start len : Nat) (magic : List Nat) :
    FieldV :=
  if copyString src start len = magic then .nullV else parseString src start len

/-! ## Value transforms -/

/-- IEEE class of `offset + v * factor` for a non-finite `v` and finite
`offset`, `factor`: a positive factor keeps an infinity, a negative one
flips it, a zero factor gives `inf * 0 = NaN`, and NaN propagates; adding
the finite offset changes nothing. -/
def linNonFinite (factor : Rat) : NonFinite → NonFinite
  | .nanVal => .nanVal
  | .posInf => if 0 < factor then .posInf else if factor < 0 then .negInf else .nanVal
  | .negInf => if 0 < factor then .negInf else if factor < 0 then .posInf else .nanVal

/-- `linearTransform`: in place, `offset + value * factor` for the
`VAL_FLOAT`/`VAL_DOUBLE`/`VAL_INT` tags (the `VAL_INT` result is a C
double-to-`int32_t` store, i.e. truncation toward zero; a non-finite
float/double payload follows the IEEE special-value rules); every other
tag is untouched. -/
def linearTransform (f : FieldV) (offset factor : Rat) : FieldV :=
  match f with
  | .floatV v => .floatV (offset + v * factor)
  | .doubleV v => .doubleV (offset + v * factor)
  | .intV n => .intV (ratTrunc (offset + (n : Rat) * factor))
  | .floatNF x => .floatNF (linNonFinite factor x)
  | .doubleNF x => .doubleNF (linNonFinite factor x)
  | x => x

/-! ## Julian-date conversion -/

/-- `j2date` lifted from the postgresql source: integer Julian day to
proleptic-Gregorian (year, month, day).  The locals are C
`unsigned int`s, hence the conversion of the `int` argument and the
reductions modulo `2 ^ 32` on the additive steps that could wrap. -/
def j2dateC (jd : Int) : Int × Int × Int :=
  let julian0 : Nat := (toUnsigned 32 jd)
  let julian1 := (julian0 + 32044) % 4294967296
  let quad1 := julian1 / 146097
  let extra := (julian1 - quad1 * 146097) * 4 + 3
  let julian2 := (julian1 + 60 + quad1 * 3 + extra / 146097) % 4294967296
  let quad2 := julian2 / 1461
  let julian3 := julian2 - quad2 * 1461
  let y : Nat := julian3 * 4 / 1461
  let julian4 := (if y ≠ 0 then (julian3 + 305) % 365 else (julian3 + 306) % 366) + 123
  let year : Int := (y + quad2 * 4 : Nat) - 4800
  let quad3 := julian4 * 2141 / 65536
  let day : Int := (julian4 : Int) - (7834 * quad3 / 256 : Nat)
  let month : Int := ((quad3 + 10) % 12 + 1 : Nat)
  (year, month, day)

/-- Proleptic-Gregorian day count since 1970-01-01 (model of the calendar
arithmetic inside libc `mktime`). -/
def daysFromCivil (y m d : Int) : Int :=
  let y2 := y - (if m ≤ 2 then 1 else 0)
  let era := Int.fdiv y2 400
  let yoe := y2 - era * 400
  let mp := (m + 9) % 12
  let doy := (153 * mp + 2) / 5 + d - 1
  let doe := yoe * 365 + yoe / 4 - yoe / 100 + doy
  era * 146097 + doe - 719468

/-- Model of libc `mktime` with `tm_isdst = 0`: the local civil time
`(y, m, d, h, mi, s)` converted to a `time_t`, for a host timezone at the
fixed offset `tz` seconds (constant because DST is suppressed; `tz` is
carried as a parameter so that nothing depends on a particular zone).
`tm_year`/`tm_mon` biasing (`-1900`/`-1`) and its inverse inside `mktime`
cancel and are omitted. -/
def mktimeM (tz y m d h mi s : Int) : Int :=
  86400 * daysFromCivil y m d + 3600 * h + 60 * mi + s + tz

/-- The six `struct tm` fields `julian2unixtime` fills: add `0.5`,
truncate to the Julian day for `j2date`, then split the fractional part
by `×24`, `×60`, `×60` with truncation at each step. -/
def jdParts (julian : Rat) : Int × Int × Int × Int × Int × Int :=
  let j := julian + 1 / 2
  let jd := ratTrunc j
  let ymd := j2dateC jd
  let hrs : Rat := (j - (jd : Rat)) * 24
  let hour := ratTrunc hrs
  let mins : Rat := (hrs - (hour : Rat)) * 60
  let minute := ratTrunc mins
  let sec := ratTrunc ((mins - (minute : Rat)) * 60)
  (ymd.1, ymd.2.1, ymd.2.2, hour, minute, sec)

/-- `julian2unixtime`: decompose the fractional Julian day and compose the
local calendar timestamp with `mktime`. -/
def julian2unixtime (tz : Int) (julian : Rat) : Int :=
  let p := jdParts julian
  mktimeM tz p.1 p.2.1 p.2.2.1 p.2.2.2.1 p.2.2.2.2.1 p.2.2.2.2.2

/-- `makeTimeFromJd`: asserts the `VAL_DOUBLE` tag (anything else stops
the process, modelled as `none`), re-tags the field to `VAL_DATETIME` in
place, and stores `julian2unixtime` of the value.  A Double-tagged field
holding a non-finite value passes the C assert but then hits the
undefined `(int)trunc` conversion of a non-finite double (C11 6.3.1.4);
having no defined result, it is also modelled as `none`. -/
def makeTimeFromJd (tz : Int) (f : FieldV) : Option FieldV :=
  match f with
  | .doubleV q => some (.datetimeV (julian2unixtime tz q))
  | _ => none

/-! ### Byte-level lemmas -/

theorem beBytes_length (k v : Nat) : (beBytes k v).length = k := by
  induction k generalizing v with
  | zero => rfl
  | succ k ih => simp [beBytes, ih]

theorem beBytes_lt (k v : Nat) : ∀ b ∈ beBytes k v, b < 256 := by
  induction k generalizing v with
  | zero => simp [beBytes]
  | succ k ih =>
    intro b hb
    simp only [beBytes, List.mem_append, List.mem_singleton] at hb
    rcases hb with h | h
    · exact ih (v / 256) b h
    · omega

theorem beToNat_append_one (l : List Nat) (b : Nat) :
    beToNat (l ++ [b]) = beToNat l * 256 + b := by
  simp [beToNat, List.foldl_append]

theorem beToNat_beBytes (k v : Nat) (h : v < 256 ^ k) : beToNat (beBytes k v) = v := by
  induction k generalizing v with
  | zero => simp [beBytes, beToNat]; omega
  | succ k ih =>
    have hd : v / 256 < 256 ^ k := by
      rw [Nat.div_lt_iff_lt_mul (by norm_num : 0 < 256)]
      calc v < 256 ^ (k + 1) := h
        _ = 256 ^ k * 256 := by ring
    simp [beBytes, beToNat_append_one, ih (v / 256) hd]
    omega

theorem beBytes_beToNat (k : Nat) (bs : List Nat) (hl : bs.length = k)
    (hb : ∀ b ∈ bs, b < 256) : beBytes k (beToNat bs) = bs := by
  induction k generalizing bs with
  | zero => simp [beBytes]; exact List.length_eq_zero.mp hl
  | succ k ih =>
    have hne : bs ≠ [] := by intro h; rw [h] at hl; simp at hl
    have hsplit := List.dropLast_append_getLast hne
    have hlast : bs.getLast hne < 256 := hb _ (List.getLast_mem hne)
    have hdl : bs.dropLast.length = k := by
      have := List.length_dropLast bs
      omega
    rw [← hsplit, beToNat_append_one]
    simp only [beBytes]
    have e1 : (beToNat bs.dropLast * 256 + bs.getLast hne) / 256 = beToNat bs.dropLast := by
      omega
    have e2 : (beToNat bs.dropLast * 256 + bs.getLast hne) % 256 = bs.getLast hne := by
      omega
    rw [e1, e2, ih bs.dropLast hdl]
    intro b hbm
    exact hb b (by rw [← hsplit]; exact List.mem_append_left _ hbm)

theorem beBytes_mod (k v : Nat) : beBytes k (v % 256 ^ k) = beBytes k v := by
  induction k generalizing v with
  | zero => rfl
  | succ k ih =>
    simp only [beBytes]
    have hpow : (256 : Nat) ^ (k + 1) = 256 * 256 ^ k := by ring
    have e1 : v % 256 ^ (k + 1) % 256 = v % 256 := by
      rw [hpow]; exact Nat.mod_mod_of_dvd v (dvd_mul_right 256 (256 ^ k))
    have e2 : v % 256 ^ (k + 1) / 256 = v / 256 % 256 ^ k := by
      rw [hpow]; exact Nat.mod_mul_right_div_self v 256 (256 ^ k)
    rw [e1, e2, ih]

theorem toUnsigned_lt (w : Nat) (v : Int) : toUnsigned w v < 2 ^ w := by
  unfold toUnsigned
  have hp : (0 : Int) < (2 : Int) ^ w := by positivity
  have h1 : 0 ≤ v % ((2 : Int) ^ w) := Int.emod_nonneg v (by omega)
  have h2 : v % ((2 : Int) ^ w) < (2 : Int) ^ w := Int.emod_lt_of_pos v hp
  have hc : ((2 : Nat) ^ w : Int) = (2 : Int) ^ w := by push_cast; ring
  omega

theorem toSigned_toUnsigned_8 (v : Int) (h1 : -(2 ^ 7) ≤ v) (h2 : v < 2 ^ 7) :
    toSigned 8 (toUnsigned 8 v) = v := by
  unfold toSigned toUnsigned
  norm_num at *
  split <;> omega

theorem toSigned_toUnsigned_16 (v : Int) (h1 : -(2 ^ 15) ≤ v) (h2 : v < 2 ^ 15) :
    toSigned 16 (toUnsigned 16 v) = v := by
  unfold toSigned toUnsigned
  norm_num at *
  split <;> omega

theorem toSigned_toUnsigned_32 (v : Int) (h1 : -(2 ^ 31) ≤ v) (h2 : v < 2 ^ 31) :
    toSigned 32 (toUnsigned 32 v) = v := by
  unfold toSigned toUnsigned
  norm_num at *
  split <;> omega

theorem toSigned_toUnsigned_64 (v : Int) (h1 : -(2 ^ 63) ≤ v) (h2 : v < 2 ^ 63) :
    toSigned 64 (toUnsigned 64 v) = v := by
  unfold toSigned toUnsigned
  norm_num at *
  split <;> omega

/-- The memory image of an `htonl`-converted value is the big-endian byte
string of the original value, on either kind of host. -/
theorem memBytes_htonl (e : Endian) (v : Nat) :
    memBytes e 4 (htonl e v) = beBytes 4 v := by
  cases e with
  | big =>
    show beBytes 4 (v % 4294967296) = beBytes 4 v
    have : (4294967296 : Nat) = 256 ^ 4 := by norm_num
    rw [this]
    exact beBytes_mod 4 v
  | little =>
    show (beBytes 4 (byteSwap32 (v % 4294967296))).reverse = beBytes 4 v
    unfold byteSwap32
    rw [beBytes_beToNat 4 _ (by simp [beBytes_length]) (by
      intro b hb
      exact beBytes_lt 4 _ b (List.mem_reverse.mp hb))]
    rw [List.reverse_reverse]
    have : (4294967296 : Nat) = 256 ^ 4 := by norm_num
    rw [this]
    exact beBytes_mod 4 v

/-- 16-bit analogue of `memBytes_htonl`. -/
theorem memBytes_htons (e : Endian) (v : Nat) :
    memBytes e 2 (htons e v) = beBytes 2 v := by
  cases e with
  | big =>
    show beBytes 2 (v % 65536) = beBytes 2 v
    have : (65536 : Nat) = 256 ^ 2 := by norm_num
    rw [this]
    exact beBytes_mod 2 v
  | little =>
    show (beBytes 2 (byteSwap16 (v % 65536))).reverse = beBytes 2 v
    unfold byteSwap16
    rw [beBytes_beToNat 2 _ (by simp [beBytes_length]) (by
      intro b hb
      exact beBytes_lt 2 _ b (List.mem_reverse.mp hb))]
    rw [List.reverse_reverse]
    have : (65536 : Nat) = 256 ^ 2 := by norm_num
    rw [this]
    exact beBytes_mod 2 v

/-- Mirroring the memory image of a value yields its big-endian bytes on
either kind of host: on a big-endian host memory already is big-endian and
`mirrorBytes` does nothing, on a little-endian host the little-endian
image is reversed. -/
theorem mirrorBytes_memBytes (e : Endian) (k v : Nat) :
    mirrorBytes e (memBytes e k v) = beBytes k v := by
  cases e with
  | big => rfl
  | little => simp [mirrorBytes, memBytes]

theorem beBytes_4_1 : beBytes 4 1 = [0, 0, 0, 1] := rfl

theorem beBytes_4_2 : beBytes 4 2 = [0, 0, 0, 2] := rfl

theorem beBytes_4_4 : beBytes 4 4 = [0, 0, 0, 4] := rfl

theorem beBytes_4_8 : beBytes 4 8 = [0, 0, 0, 8] := rfl

/-- The encoder output is identical on big- and little-endian hosts and
equals the big-endian reference encoding, field by field. -/
theorem writeField_eq_specBE (e : Endian) (pq : Int) (f : Field) :
    writeField e pq f = specBE_writeField pq f := by
  cases f <;>
    simp [writeField, specBE_writeField, writeBoolean, writeShort, writeInteger,
      writeBigint, writeFloat, writeDouble, writeText, writeJdate, writeDate,
      writeDatetime, memBytes_htonl, memBytes_htons, mirrorBytes_memBytes,
      beBytes_4_2, beBytes_4_4, beBytes_4_8]

/-- The row encoder equals its big-endian reference form. -/
theorem writeTuple_eq_specBE (e : Endian) (pq : Int) (fields : List Field) (n : Nat) :
    writeTuple e pq fields n = specBE_writeTuple pq fields n := by
  unfold writeTuple specBE_writeTuple
  rw [memBytes_htons]
  congr 1
  congr 1
  exact List.map_congr_left (fun f _ => writeField_eq_specBE e pq f)

/-- The header writer equals its host-independent form. -/
theorem writeHeader_eq_specBE (e : Endian) : writeHeader e = specBE_writeHeader := by
  cases e <;> rfl

theorem toSigned_32_of_lt (n : Nat) (h : n < 2 ^ 31) : toSigned 32 n = n := by
  unfold toSigned
  rw [if_pos (by norm_num at h ⊢; omega)]

/-- Reading a frame whose length word is a value below `2 ^ 31` and whose
payload has exactly that many bytes reduces to interpreting the payload. -/
theorem decodeField_frame (pq : Int) (t : ValType) (sz : Nat) (payload : List Nat)
    (hsz : sz < 2 ^ 31) (hlen : payload.length = sz) :
    decodeField pq t (beBytes 4 sz ++ payload) = decodePayload pq t payload := by
  unfold decodeField
  have ht : (beBytes 4 sz ++ payload).take 4 = beBytes 4 sz := by
    have h4 : (beBytes 4 sz).length = 4 := beBytes_length 4 sz
    rw [← h4]; exact List.take_left _ _
  have hd : (beBytes 4 sz ++ payload).drop 4 = payload := by
    have h4 : (beBytes 4 sz).length = 4 := beBytes_length 4 sz
    rw [← h4]; exact List.drop_left _ _
  rw [ht, hd]
  rw [beToNat_beBytes 4 sz (by norm_num at hsz ⊢; omega)]
  rw [toSigned_32_of_lt sz hsz]
  rw [if_neg (by simp [beBytes_length])]
  rw [if_neg (by omega)]
  rw [if_neg (by rw [hlen]; simp)]

theorem takeWhile_ne_zero (s : List Nat) (h : ∀ c ∈ s, c ≠ 0) :
    s.takeWhile (fun c => c != 0) = s := by
  induction s with
  | nil => rfl
  | cons a t ih =>
    have ha : (a != 0) = true := by
      simpa using h a (List.mem_cons_self a t)
    rw [List.takeWhile_cons, ha]
    simp [ih (fun c hc => h c (List.mem_cons_of_mem a hc))]

theorem dropWhile_head (p : Nat → Bool) :
    ∀ (s : List Nat) (c : Nat) (t : List Nat), s.dropWhile p = c :: t → p c = false := by
  intro s
  induction s with
  | nil => intro c t h; simp [List.dropWhile] at h
  | cons a s' ih =>
    intro c t h
    rw [List.dropWhile_cons] at h
    by_cases hp : p a = true
    · rw [if_pos hp] at h; exact ih c t h
    · rw [if_neg hp] at h
      injection h with h1 h2
      subst h1
      simpa using hp

theorem trimRightC_cons_of (c : Nat) (t : List Nat) (h : isspaceB c = false) :
    trimRightC (c :: t) = c :: trimRightC t := by
  rw [trimRightC, if_neg (by simp [h])]

theorem stripC_cases (s : List Nat) :
    stripWhitespaceC s = [] ∨
      ∃ c t, stripWhitespaceC s = c :: t ∧ isspaceB c = false := by
  rcases hs : s.dropWhile isspaceB with - | ⟨c, t⟩
  · left; simp [stripWhitespaceC, hs]
  · right
    have hc : isspaceB c = false := dropWhile_head isspaceB s c t hs
    exact ⟨c, trimRightC t, by simp [stripWhitespaceC, hs, trimRightC_cons_of c t hc], hc⟩

theorem all_dropWhile_nil (p : Nat → Bool) (s : List Nat) (h : s.all p = true) :
    s.dropWhile p = [] := by
  induction s with
  | nil => rfl
  | cons a t ih =>
    simp only [List.all_cons, Bool.and_eq_true] at h
    rw [List.dropWhile_cons, if_pos h.1]
    exact ih h.2

theorem stripC_nil_of_all (s : List Nat) (h : s.all isspaceB = true) :
    stripWhitespaceC s = [] := by
  simp [stripWhitespaceC, all_dropWhile_nil isspaceB s h]

theorem dropWhile_length_le (p : Nat → Bool) (s : List Nat) :
    (s.dropWhile p).length ≤ s.length := by
  induction s with
  | nil => simp
  | cons a t ih =>
    rw [List.dropWhile_cons]
    by_cases hp : p a = true
    · rw [if_pos hp]; simp; omega
    · rw [if_neg hp]

theorem trimRightC_length_le (s : List Nat) : (trimRightC s).length ≤ s.length := by
  induction s with
  | nil => simp [trimRightC]
  | cons a t ih =>
    unfold trimRightC
    split
    · simp
    · simpa using ih

theorem stripC_length_le (s : List Nat) : (stripWhitespaceC s).length ≤ s.length := by
  by_cases h : s.dropWhile isspaceB = []
  · simp [stripWhitespaceC, h]
  · calc (stripWhitespaceC s).length
        = (trimRightC (s.dropWhile isspaceB)).length := by simp [stripWhitespaceC, h]
    _ ≤ (s.dropWhile isspaceB).length := trimRightC_length_le _
    _ ≤ s.length := dropWhile_length_le _ _

theorem takeWhile_digit_nil_iff (r : List Nat) :
    (r.takeWhile isdigitB = []) ↔ headDigitB r = false := by
  cases r with
  | nil => simp [List.takeWhile, headDigitB]
  | cons c t =>
    cases hc : isdigitB c
    · simp [List.takeWhile_cons, hc, headDigitB]
    · simp [List.takeWhile_cons, hc, headDigitB]

theorem digitsOpt_eq_none (r : List Nat) : digitsOpt r = none ↔ headDigitB r = false := by
  by_cases h : r.takeWhile isdigitB = []
  · simp [digitsOpt, h, (takeWhile_digit_nil_iff r).mp h]
  · simp only [digitsOpt, if_neg h]
    cases hh : headDigitB r
    · exact absurd ((takeWhile_digit_nil_iff r).mpr hh) h
    · simp

theorem sscanf_d_none_iff (s : List Nat) :
    sscanf_d s = none ↔ hasIntNumeral (s.dropWhile isspaceB) = false := by
  unfold sscanf_d hasIntNumeral
  cases hdg : digitsOpt (skipSign (s.dropWhile isspaceB))
  · simp [hdg, (digitsOpt_eq_none _).mp hdg]
  · simp [hdg]
    cases hh : headDigitB (skipSign (s.dropWhile isspaceB))
    · exact absurd ((digitsOpt_eq_none _).mpr hh) (by simp [hdg])
    · simp

theorem decScan_none_iff (r : List Nat) : decScan r = none ↔ decOKB r = false := by
  simp only [decScan, decOKB]
  cases hfs : fracSplit isdigitB (r.drop (r.takeWhile isdigitB).length) with
  | none =>
    cases hb : (r.takeWhile isdigitB).isEmpty <;>
      cases he : expDigitsOK 101 (r.drop (r.takeWhile isdigitB).length) <;>
        simp [hb, he]
  | some p =>
    obtain ⟨d2, t2⟩ := p
    cases hb1 : (r.takeWhile isdigitB).isEmpty <;>
      cases hb2 : d2.isEmpty <;>
        cases he : expDigitsOK 101 t2 <;>
          simp [hb1, hb2, he]

theorem hexScan_none_iff (t : List Nat) : hexScan t = none ↔ hexOKB t = false := by
  simp only [hexScan, hexOKB]
  cases hfs : fracSplit ishexB (t.drop (t.takeWhile ishexB).length) with
  | none =>
    cases hb : (t.takeWhile ishexB).isEmpty <;>
      cases he : expDigitsOK 112 (t.drop (t.takeWhile ishexB).length) <;>
        simp [hb, he]
  | some p =>
    obtain ⟨h2, t2⟩ := p
    cases hb1 : (t.takeWhile ishexB).isEmpty <;>
      cases hb2 : h2.isEmpty <;>
        cases he : expDigitsOK 112 t2 <;>
          simp [hb1, hb2, he]

theorem floatBody_none_iff (r : List Nat) : floatBody r = none ↔ floatStartsOK r = false := by
  cases r with
  | nil => simp [floatBody, floatStartsOK]
  | cons c t =>
    simp only [floatBody, floatStartsOK]
    by_cases h1 : lowerB c = 105
    · rw [if_pos h1, if_pos h1]
      cases hB : infOK (c :: t) <;> simp [hB]
    · rw [if_neg h1, if_neg h1]
      by_cases h2 : lowerB c = 110
      · rw [if_pos h2, if_pos h2]
        cases hB : nanOK (c :: t) <;> simp [hB]
      · rw [if_neg h2, if_neg h2]
        by_cases h3 : (c = 48 && headIsX t) = true
        · rw [if_pos h3, if_pos h3]
          exact hexScan_none_iff t.tail
        · rw [if_neg h3, if_neg h3]
          exact decScan_none_iff (c :: t)

theorem sscanf_f_none_iff (s : List Nat) :
    sscanf_f s = none ↔ floatSubjectOK (s.dropWhile isspaceB) = false := by
  unfold sscanf_f floatSubjectOK
  cases hfs : floatBody (skipSign (s.dropWhile isspaceB))
  · simp [hfs, (floatBody_none_iff _).mp hfs]
  · simp [hfs]
    cases hh : floatStartsOK (skipSign (s.dropWhile isspaceB))
    · exact absurd ((floatBody_none_iff _).mpr hh) (by simp [hfs])
    · simp

theorem parseInt_none_iff (src : List Nat) (start len : Nat) :
    parseInt src start len = none ↔
      (copyString src start len ≠ [] ∧ hasIntNumeral (copyString src start len) = false) := by
  unfold parseInt
  rcases stripC_cases ((src.drop start).take len) with h | ⟨c, t, h, hc⟩
  · have hcs : copyString src start len = [] := h
    rw [hcs]
    decide
  · have hcs : copyString src start len = c :: t := h
    rw [hcs]
    have hdw : (c :: t).dropWhile isspaceB = c :: t := by
      rw [List.dropWhile_cons, if_neg (by simp [hc])]
    have hws : isWhitespaceOnly (c :: t) = false := by
      simp [isWhitespaceOnly, hc]
    cases hs : sscanf_d (c :: t)
    · have hin := (sscanf_d_none_iff (c :: t)).mp hs
      rw [hdw] at hin
      simp [hs, hws, hin]
    · have hT : hasIntNumeral (c :: t) = true := by
        cases hh : hasIntNumeral (c :: t)
        · have hz : sscanf_d (c :: t) = none :=
            (sscanf_d_none_iff (c :: t)).mpr (by rw [hdw]; exact hh)
          rw [hs] at hz
          exact absurd hz (by simp)
        · rfl
      simp [hs, hT]

theorem parseBigint_none_iff (src : List Nat) (start len : Nat) :
    parseBigint src start len = none ↔
      (copyString src start len ≠ [] ∧ hasIntNumeral (copyString src start len) = false) := by
  unfold parseBigint
  rcases stripC_cases ((src.drop start).take len) with h | ⟨c, t, h, hc⟩
  · have hcs : copyString src start len = [] := h
    rw [hcs]
    decide
  · have hcs : copyString src start len = c :: t := h
    rw [hcs]
    have hdw : (c :: t).dropWhile isspaceB = c :: t := by
      rw [List.dropWhile_cons, if_neg (by simp [hc])]
    have hws : isWhitespaceOnly (c :: t) = false := by
      simp [isWhitespaceOnly, hc]
    cases hs : sscanf_d (c :: t)
    · have hin := (sscanf_d_none_iff (c :: t)).mp hs
      rw [hdw] at hin
      simp [hs, hws, hin]
    · have hT : hasIntNumeral (c :: t) = true := by
        cases hh : hasIntNumeral (c :: t)
        · have hz : sscanf_d (c :: t) = none :=
            (sscanf_d_none_iff (c :: t)).mpr (by rw [hdw]; exact hh)
          rw [hs] at hz
          exact absurd hz (by simp)
        · rfl
      simp [hs, hT]

theorem parseDouble_none_iff (src : List Nat) (start len : Nat) :
    parseDouble src start len = none ↔
      (copyString src start len ≠ [] ∧ floatSubjectOK (copyString src start len) = false) := by
  unfold parseDouble
  rcases stripC_cases ((src.drop start).take len) with h | ⟨c, t, h, hc⟩
  · have hcs : copyString src start len = [] := h
    rw [hcs]
    decide
  · have hcs : copyString src start len = c :: t := h
    rw [hcs]
    have hdw : (c :: t).dropWhile isspaceB = c :: t := by
      rw [List.dropWhile_cons, if_neg (by simp [hc])]
    have hws : isWhitespaceOnly (c :: t) = false := by
      simp [isWhitespaceOnly, hc]
    cases hs : sscanf_f (c :: t)
    · have hin := (sscanf_f_none_iff (c :: t)).mp hs
      rw [hdw] at hin
      simp [hs, hws, hin]
    · have hT : floatSubjectOK (c :: t) = true := by
        cases hh : floatSubjectOK (c :: t)
        · have hz : sscanf_f (c :: t) = none :=
            (sscanf_f_none_iff (c :: t)).mpr (by rw [hdw]; exact hh)
          rw [hs] at hz
          exact absurd hz (by simp)
        · rfl
      simp [hs, hT]

theorem parseFloat_none_iff (src : List Nat) (start len : Nat) :
    parseFloat src start len = none ↔
      (copyString src start len ≠ [] ∧ floatSubjectOK (copyString src start len) = false) := by
  unfold parseFloat
  rcases stripC_cases ((src.drop start).take len) with h | ⟨c, t, h, hc⟩
  · have hcs : copyString src start len = [] := h
    rw [hcs]
    decide
  · have hcs : copyString src start len = c :: t := h
    rw [hcs]
    have hdw : (c :: t).dropWhile isspaceB = c :: t := by
      rw [List.dropWhile_cons, if_neg (by simp [hc])]
    have hws : isWhitespaceOnly (c :: t) = false := by
      simp [isWhitespaceOnly, hc]
    cases hs : sscanf_f (c :: t)
    · have hin := (sscanf_f_none_iff (c :: t)).mp hs
      rw [hdw] at hin
      simp [hs, hws, hin]
    · have hT : floatSubjectOK (c :: t) = true := by
        cases hh : floatSubjectOK (c :: t)
        · have hz : sscanf_f (c :: t) = none :=
            (sscanf_f_none_iff (c :: t)).mpr (by rw [hdw]; exact hh)
          rw [hs] at hz
          exact absurd hz (by simp)
        · rfl
      simp [hs, hT]

theorem parseFloatWithMagicNULL_none_iff (src : List Nat) (start len : Nat)
    (magic : List Nat) :
    parseFloatWithMagicNULL src start len magic = none ↔
      (copyString src start len ≠ magic ∧ copyString src start len ≠ [] ∧
        floatSubjectOK (copyString src start len) = false) := by
  unfold parseFloatWithMagicNULL
  by_cases hm : copyString src start len = magic
  · simp [hm]
  · rw [if_neg hm]
    rcases stripC_cases ((src.drop start).take len) with h | ⟨c, t, h, hc⟩
    · have hcs : copyString src start len = [] := h
      rw [hcs]
      constructor
      · intro hx; exact absurd hx (by decide)
      · rintro ⟨-, h2, -⟩; exact absurd rfl h2
    · have hcs : copyString src start len = c :: t := h
      rw [hcs] at hm ⊢
      have hdw : (c :: t).dropWhile isspaceB = c :: t := by
        rw [List.dropWhile_cons, if_neg (by simp [hc])]
      have hws : isWhitespaceOnly (c :: t) = false := by
        simp [isWhitespaceOnly, hc]
      cases hs : sscanf_f (c :: t)
      · have hin := (sscanf_f_none_iff (c :: t)).mp hs
        rw [hdw] at hin
        simp [hs, hws, hin, hm]
      · have hT : floatSubjectOK (c :: t) = true := by
          cases hh : floatSubjectOK (c :: t)
          · have hz : sscanf_f (c :: t) = none :=
              (sscanf_f_none_iff (c :: t)).mpr (by rw [hdw]; exact hh)
            rw [hs] at hz
            exact absurd hz (by simp)
          · rfl
        simp [hs, hT]

theorem parseInt_ws (src : List Nat) (start len : Nat)
    (h : ((src.drop start).take len).all isspaceB = true) :
    parseInt src start len = some .nullV := by
  have hcs : copyString src start len = [] := stripC_nil_of_all _ h
  unfold parseInt
  rw [hcs]
  rfl

theorem parseBigint_ws (src : List Nat) (start len : Nat)
    (h : ((src.drop start).take len).all isspaceB = true) :
    parseBigint src start len = some .nullV := by
  have hcs : copyString src start len = [] := stripC_nil_of_all _ h
  unfold parseBigint
  rw [hcs]
  rfl

theorem parseDouble_ws (src : List Nat) (start len : Nat)
    (h : ((src.drop start).take len).all isspaceB = true) :
    parseDouble src start len = some .nullV := by
  have hcs : copyString src start len = [] := stripC_nil_of_all _ h
  unfold parseDouble
  rw [hcs]
  rfl

theorem parseFloat_ws (src : List Nat) (start len : Nat)
    (h : ((src.drop start).take len).all isspaceB = true) :
    parseFloat src start len = some .nullV := by
  have hcs : copyString src start len = [] := stripC_nil_of_all _ h
  unfold parseFloat
  rw [hcs]
  rfl

theorem parseFloatWithMagicNULL_ws (src : List Nat) (start len : Nat)
    (magic : List Nat) (h : ((src.drop start).take len).all isspaceB = true) :
    parseFloatWithMagicNULL src start len magic = some .nullV := by
  have hcs : copyString src start len = [] := stripC_nil_of_all _ h
  unfold parseFloatWithMagicNULL
  rw [hcs]
  by_cases hm : ([] : List Nat) = magic
  · rw [if_pos hm]
  · rw [if_neg hm]
    rfl

theorem ratTrunc_eq_of_nonneg (n : Int) (q : Rat) (h0 : 0 ≤ q) (h1 : (n : Rat) ≤ q)
    (h2 : q < (n : Rat) + 1) : ratTrunc q = n := by
  unfold ratTrunc
  rw [if_pos h0, Int.floor_eq_iff]
  exact ⟨h1, by exact_mod_cast h2⟩

theorem jdParts_J2000 : jdParts 2451545 = (2000, 1, 1, 12, 0, 0) := by
  have hjd : ratTrunc ((2451545 : Rat) + 1 / 2) = 2451545 :=
    ratTrunc_eq_of_nonneg 2451545 _ (by norm_num) (by norm_num) (by norm_num)
  have hj2 : j2dateC (2451545 : Int) = (2000, 1, 1) := by decide
  have hhrs : ((2451545 : Rat) + 1 / 2 - ((2451545 : Int) : Rat)) * 24 = 12 := by
    push_cast; norm_num
  have h12 : ratTrunc (12 : Rat) = 12 :=
    ratTrunc_eq_of_nonneg 12 _ (by norm_num) (by norm_num) (by norm_num)
  have hmin : ((12 : Rat) - ((12 : Int) : Rat)) * 60 = 0 := by push_cast; norm_num
  have h0 : ratTrunc (0 : Rat) = 0 :=
    ratTrunc_eq_of_nonneg 0 _ (by norm_num) (by norm_num) (by norm_num)
  have hsec : ((0 : Rat) - ((0 : Int) : Rat)) * 60 = 0 := by push_cast; norm_num
  simp only [jdParts]
  rw [hjd, hj2, hhrs, h12, hmin, h0, hsec, h0]

theorem julian2unixtime_J2000 (tz : Int) :
    julian2unixtime tz 2451545 = mktimeM tz 2000 1 1 12 0 0 := by
  simp only [julian2unixtime]
  rw [jdParts_J2000]

/-- C1 (amended): on every host — big- or little-endian — the encoder's
output is identical and fully big-endian: `writeField` (4-byte length
prefix and every payload, wide tags included), `writeTuple` (2-byte field
count), and `writeHeader` all equal their host-independent big-endian
reference forms; `mirrorBytes` reverses host memory order on a
little-endian host, which *produces* network order rather than reversing
it. -/
theorem encoder_allHosts_bigEndian :
    ∀ (e : Endian) (pq : Int) (f : Field) (fields : List Field) (n : Nat),
      writeField e pq f = specBE_writeField pq f ∧
      writeTuple e pq fields n = specBE_writeTuple pq fields n ∧
      writeHeader e = specBE_writeHeader :=
  fun e pq f fields n =>
    ⟨writeField_eq_specBE e pq f, writeTuple_eq_specBE e pq fields n,
      writeHeader_eq_specBE e⟩

/-- C1 counterexample: on a little-endian host, the BigInt payload of the
value `1` comes out as the big-endian bytes `00…01`, not byte-reversed
relative to big-endian as the claim states. -/
theorem bigint_little_endian_payload_not_reversed :
    writeField Endian.little 0 (Field.vBigint 1)
        = [0, 0, 0, 8] ++ [0, 0, 0, 0, 0, 0, 0, 1] ∧
    [0, 0, 0, 8] ++ [0, 0, 0, 0, 0, 0, 0, 1]
        ≠ [0, 0, 0, 8] ++ List.reverse [0, 0, 0, 0, 0, 0, 0, 1] := by
  decide

/-- C2 (amended): each numeric parser aborts the process exactly when the
trimmed text is non-empty and does not begin (after an optional sign)
with a complete numeral of the conversion — a digit run for `%d`/`%Ld`;
for `%f`/`%lf` a complete C99 floating subject sequence, i.e. a decimal
or hexadecimal significand with a well-formed optional exponent, an
infinity, or a NaN, where a consumed-but-incomplete prefix (a truncated
`inf`/`nan`, `0x` without hex digits, an exponent marker without digits)
is fatal per the fscanf input-item rule; for `parseFloatWithMagicNULL`
the magic sentinel is additionally excluded.  Text that begins with a
valid numeral is accepted with trailing junk ignored, and `inf`, `NaN`
and hex floats are accepted, not fatal: `"inf"` gives a Double holding
`+∞`, `"NaN"` a Float holding NaN, `"0x1p3"` is accepted, while `"1e+x"`
aborts. -/
theorem numericParsers_abort_iff :
    ∀ (src : List Nat) (start len : Nat) (magic : List Nat),
      (parseInt src start len = none ↔
        (copyString src start len ≠ [] ∧
          hasIntNumeral (copyString src start len) = false)) ∧
      (parseBigint src start len = none ↔
        (copyString src start len ≠ [] ∧
          hasIntNumeral (copyString src start len) = false)) ∧
      (parseDouble src start len = none ↔
        (copyString src start len ≠ [] ∧
          floatSubjectOK (copyString src start len) = false)) ∧
      (parseFloat src start len = none ↔
        (copyString src start len ≠ [] ∧
          floatSubjectOK (copyString src start len) = false)) ∧
      (parseFloatWithMagicNULL src start len magic = none ↔
        (copyString src start len ≠ magic ∧ copyString src start len ≠ [] ∧
          floatSubjectOK (copyString src start len) = false)) ∧
      parseDouble [105, 110, 102] 0 3 = some (FieldV.doubleNF NonFinite.posInf) ∧
      parseFloat [78, 97, 78] 0 3 = some (FieldV.floatNF NonFinite.nanVal) ∧
      parseDouble [48, 120, 49, 112, 51] 0 5 ≠ none ∧
      parseDouble [49, 101, 43, 120] 0 4 = none :=
  fun src start len magic =>
    ⟨parseInt_none_iff src start len, parseBigint_none_iff src start len,
      parseDouble_none_iff src start len, parseFloat_none_iff src start len,
      parseFloatWithMagicNULL_none_iff src start len magic,
      by decide, by decide, by decide, by decide⟩

/-- C2 counterexample: parsing the bytes of `"12x3"` as Int does not
abort; `sscanf` matches the prefix `12` and the parser returns
`Field{Int, 12}`. -/
theorem parseInt_12x3_returns_12 :
    parseInt [49, 50, 120, 51] 0 4 = some (FieldV.intV 12) ∧
    parseInt [49, 50, 120, 51] 0 4 ≠ none := by
  decide

/-- C3 (amended): encoding a well-formed field with `writeField` and
decoding with the reference reader recovers the original field exactly,
for every tag — `Null` included — except `JulianDate` and `Date`, whose
payloads are lossy day counts. -/
theorem decode_writeField_roundtrip (e : Endian) (pq : Int) (f : Field)
    (hwf : wfB pq f = true) (hj : tagOf f ≠ ValType.VAL_JDATE)
    (hd : tagOf f ≠ ValType.VAL_DATE) :
    decodeField pq (tagOf f) (writeField e pq f) = some f := by
  rw [writeField_eq_specBE]
  cases f with
  | vNull =>
    show decodeField pq .VAL_NULL (beBytes 4 (toUnsigned 32 (-1))) = some .vNull
    have h1 : toUnsigned 32 (-1) = 4294967295 := by decide
    rw [h1]
    rfl
  | vBool b =>
    simp only [wfB, decide_eq_true_eq] at hwf
    show decodeField pq .VAL_BOOL ([0, 0, 0, 1] ++ [toUnsigned 8 b]) = some (.vBool b)
    rw [← beBytes_4_1, decodeField_frame pq _ 1 _ (by norm_num) (by simp)]
    simp [decodePayload, beToNat]
    exact toSigned_toUnsigned_8 b hwf.1 hwf.2
  | vChar c =>
    simp only [wfB, decide_eq_true_eq] at hwf
    show decodeField pq .VAL_CHAR ([0, 0, 0, 1] ++ [toUnsigned 8 c]) = some (.vChar c)
    rw [← beBytes_4_1, decodeField_frame pq _ 1 _ (by norm_num) (by simp)]
    simp [decodePayload, beToNat]
    exact toSigned_toUnsigned_8 c hwf.1 hwf.2
  | vShort n =>
    simp only [wfB, decide_eq_true_eq] at hwf
    show decodeField pq .VAL_SHORT ([0, 0, 0, 2] ++ beBytes 2 (toUnsigned 16 n))
        = some (.vShort n)
    rw [← beBytes_4_2, decodeField_frame pq _ 2 _ (by norm_num) (by simp [beBytes_length])]
    simp [decodePayload, beBytes_length]
    rw [beToNat_beBytes 2 _ (by have := toUnsigned_lt 16 n; norm_num at this ⊢; omega)]
    exact toSigned_toUnsigned_16 n hwf.1 hwf.2
  | vInt n =>
    simp only [wfB, decide_eq_true_eq] at hwf
    show decodeField pq .VAL_INT ([0, 0, 0, 4] ++ beBytes 4 (toUnsigned 32 n))
        = some (.vInt n)
    rw [← beBytes_4_4, decodeField_frame pq _ 4 _ (by norm_num) (by simp [beBytes_length])]
    simp [decodePayload, beBytes_length]
    rw [beToNat_beBytes 4 _ (by have := toUnsigned_lt 32 n; norm_num at this ⊢; omega)]
    exact toSigned_toUnsigned_32 n hwf.1 hwf.2
  | vBigint n =>
    simp only [wfB, decide_eq_true_eq] at hwf
    show decodeField pq .VAL_BIGINT ([0, 0, 0, 8] ++ beBytes 8 (toUnsigned 64 n))
        = some (.vBigint n)
    rw [← beBytes_4_8, decodeField_frame pq _ 8 _ (by norm_num) (by simp [beBytes_length])]
    simp [decodePayload, beBytes_length]
    rw [beToNat_beBytes 8 _ (by have := toUnsigned_lt 64 n; norm_num at this ⊢; omega)]
    exact toSigned_toUnsigned_64 n hwf.1 hwf.2
  | vFloat bits =>
    simp only [wfB, decide_eq_true_eq] at hwf
    show decodeField pq .VAL_FLOAT ([0, 0, 0, 4] ++ beBytes 4 bits) = some (.vFloat bits)
    rw [← beBytes_4_4, decodeField_frame pq _ 4 _ (by norm_num) (by simp [beBytes_length])]
    simp [decodePayload, beBytes_length]
    exact beToNat_beBytes 4 bits (by norm_num at hwf ⊢; omega)
  | vDouble bits =>
    simp only [wfB, decide_eq_true_eq] at hwf
    show decodeField pq .VAL_DOUBLE ([0, 0, 0, 8] ++ beBytes 8 bits) = some (.vDouble bits)
    rw [← beBytes_4_8, decodeField_frame pq _ 8 _ (by norm_num) (by simp [beBytes_length])]
    simp [decodePayload, beBytes_length]
    exact beToNat_beBytes 8 bits (by norm_num at hwf ⊢; omega)
  | vText s =>
    simp only [wfB, Bool.and_eq_true, List.all_eq_true, decide_eq_true_eq] at hwf
    obtain ⟨hall, hlen31⟩ := hwf
    have hnz : ∀ c ∈ s, c ≠ 0 := fun c hc => by have := hall c hc; omega
    show decodeField pq .VAL_TEXT
        (beBytes 4 (cstrlen s) ++ s.takeWhile (fun c => c != 0)) = some (.vText s)
    rw [takeWhile_ne_zero s hnz]
    have hcl : cstrlen s = s.length := by
      unfold cstrlen; rw [takeWhile_ne_zero s hnz]
    rw [hcl, decodeField_frame pq _ s.length s (by norm_num at hlen31 ⊢; omega) rfl]
    simp [decodePayload]
  | vJdate q => exact absurd rfl hj
  | vDate t => exact absurd rfl hd
  | vDatetime t =>
    simp only [wfB, decide_eq_true_eq] at hwf
    show decodeField pq .VAL_DATETIME
        ([0, 0, 0, 8] ++ beBytes 8 (toUnsigned 64 ((t - pq) * 1000000)))
        = some (.vDatetime t)
    rw [← beBytes_4_8, decodeField_frame pq _ 8 _ (by norm_num) (by simp [beBytes_length])]
    simp [decodePayload, beBytes_length]
    rw [beToNat_beBytes 8 _
      (by have := toUnsigned_lt 64 ((t - pq) * 1000000); norm_num at this ⊢; omega)]
    rw [toSigned_toUnsigned_64 _ hwf.1 hwf.2]
    omega

/-- C3 witness: the Int field `-5` round-trips on a little-endian host. -/
theorem decode_writeField_roundtrip_witness :
    decodeField 0 ValType.VAL_INT (writeField Endian.little 0 (Field.vInt (-5)))
      = some (Field.vInt (-5)) :=
  decode_writeField_roundtrip Endian.little 0 (Field.vInt (-5)) (by decide)
    (by decide) (by decide)

/-- C3 counterexample: a `Date` field one second after the epoch encodes
to the day count `0` and decodes back to the epoch itself — the original
value is not recovered. -/
theorem date_roundtrip_lossy :
    decodeField 0 ValType.VAL_DATE (writeField Endian.big 0 (Field.vDate 1))
      = some (Field.vDate 0) ∧ Field.vDate 0 ≠ Field.vDate 1 := by
  decide

/-- C4: `makeTimeFromJd` on a Double field re-tags it to DateTime carrying
`julian2unixtime` of the value (Julian-day decomposition via `j2date` plus
`×24`/`×60`/`×60` truncating splits, composed by the `mktime` model); at
`2451545.0` the result is the timestamp of 2000-01-01 12:00:00 local
time, for every timezone offset. -/
theorem makeTimeFromJd_spec :
    ∀ (tz : Int) (q : Rat),
      makeTimeFromJd tz (FieldV.doubleV q)
        = some (FieldV.datetimeV (julian2unixtime tz q)) ∧
      julian2unixtime tz 2451545 = mktimeM tz 2000 1 1 12 0 0 :=
  fun tz _ => ⟨rfl, julian2unixtime_J2000 tz⟩

/-- C5: a substring that is entirely whitespace (or empty) makes every
numeric parser produce `Field{Null}` without aborting. -/
theorem numericParsers_whitespace_null :
    ∀ (src : List Nat) (start len : Nat) (magic : List Nat),
      ((src.drop start).take len).all isspaceB = true →
        parseInt src start len = some FieldV.nullV ∧
        parseBigint src start len = some FieldV.nullV ∧
        parseDouble src start len = some FieldV.nullV ∧
        parseFloat src start len = some FieldV.nullV ∧
        parseFloatWithMagicNULL src start len magic = some FieldV.nullV :=
  fun src start len magic h =>
    ⟨parseInt_ws src start len h, parseBigint_ws src start len h,
      parseDouble_ws src start len h, parseFloat_ws src start len h,
      parseFloatWithMagicNULL_ws src start len magic h⟩

/-- C5 witness: parsing the three-space substring `"   "` yields
`Field{Null}` from every numeric parser. -/
theorem numericParsers_whitespace_null_witness :
    parseInt [32, 32, 32] 0 3 = some FieldV.nullV ∧
    parseBigint [32, 32, 32] 0 3 = some FieldV.nullV ∧
    parseDouble [32, 32, 32] 0 3 = some FieldV.nullV ∧
    parseFloat [32, 32, 32] 0 3 = some FieldV.nullV ∧
    parseFloatWithMagicNULL [32, 32, 32] 0 3 [77] = some FieldV.nullV :=
  numericParsers_whitespace_null [32, 32, 32] 0 3 [77] (by decide)

/-- C6 (amended): `linearTransform` replaces the value with
`offset + value * factor` for the Float and Double tags; for the Int tag
it stores the truncation toward zero of that quantity (C double-to-int
store); every other tag — `Null`, `Text`, `Char` included — is left
completely unchanged; `LinearTransform(Field{Double,10}, 0, 1/3600)`
gives `Field{Double, 10/3600}`. -/
theorem linearTransform_spec :
    ∀ (o fac v : Rat) (n b c sh bg dt tt : Int) (s : List Nat) (l : Int) (jq : Rat),
      linearTransform (FieldV.floatV v) o fac = FieldV.floatV (o + v * fac) ∧
      linearTransform (FieldV.doubleV v) o fac = FieldV.doubleV (o + v * fac) ∧
      linearTransform (FieldV.intV n) o fac
        = FieldV.intV (ratTrunc (o + (n : Rat) * fac)) ∧
      linearTransform FieldV.nullV o fac = FieldV.nullV ∧
      linearTransform (FieldV.textV s l) o fac = FieldV.textV s l ∧
      linearTransform (FieldV.charV c) o fac = FieldV.charV c ∧
      linearTransform (FieldV.boolV b) o fac = FieldV.boolV b ∧
      linearTransform (FieldV.shortV sh) o fac = FieldV.shortV sh ∧
      linearTransform (FieldV.bigintV bg) o fac = FieldV.bigintV bg ∧
      linearTransform (FieldV.jdateV jq) o fac = FieldV.jdateV jq ∧
      linearTransform (FieldV.dateV dt) o fac = FieldV.dateV dt ∧
      linearTransform (FieldV.datetimeV tt) o fac = FieldV.datetimeV tt ∧
      linearTransform (FieldV.doubleV 10) 0 (1 / 3600) = FieldV.doubleV (10 / 3600) := by
  intro o fac v n b c sh bg dt tt s l jq
  refine ⟨rfl, rfl, rfl, rfl, rfl, rfl, rfl, rfl, rfl, rfl, rfl, rfl, ?_⟩
  show FieldV.doubleV (0 + 10 * (1 / 3600)) = FieldV.doubleV (10 / 3600)
  norm_num

/-- C6 counterexample: on `Field{Int, 1}` with offset `0`, factor `1/2`,
the stored value is the truncation `0`, not `offset + value * factor`,
which is `1/2`. -/
theorem linearTransform_int_truncates :
    linearTransform (FieldV.intV 1) 0 (1 / 2) = FieldV.intV 0 ∧
    ((0 : Rat) + (1 : Rat) * (1 / 2)) ≠ ((0 : Int) : Rat) := by
  constructor
  · show FieldV.intV (ratTrunc (0 + ((1 : Int) : Rat) * (1 / 2))) = FieldV.intV 0
    have h : (0 : Rat) + ((1 : Int) : Rat) * (1 / 2) = 1 / 2 := by push_cast; norm_num
    rw [h, ratTrunc_eq_of_nonneg 0 (1 / 2 : Rat) (by norm_num) (by norm_num) (by norm_num)]
  · push_cast
    norm_num

/-- C7: encoding `Field{Null}` emits exactly the 4 bytes `FF FF FF FF` —
the big-endian two's-complement representation of `-1` — and no payload,
on either kind of host. -/
theorem nullField_encoding :
    ∀ (e : Endian) (pq : Int),
      writeField e pq Field.vNull = [255, 255, 255, 255] ∧
      (writeField e pq Field.vNull).length = 4 ∧
      toSigned 32 (beToNat [255, 255, 255, 255]) = -1 := by
  intro e pq
  have h : writeField e pq Field.vNull = memBytes e 4 (htonl e (toUnsigned 32 (-1))) := rfl
  rw [h]
  cases e <;> exact ⟨by decide, by decide, by decide⟩

/-- C8: `writeHeader` always emits exactly these 19 bytes — the 11-byte
`PGCOPY` magic, a zero 4-byte flags word and a zero 4-byte
header-extension length — irrespective of the host byte order (and of
anything that follows, since it takes no other input). -/
theorem writeHeader_19_bytes :
    ∀ e : Endian,
      writeHeader e
        = [80, 71, 67, 79, 80, 89, 10, 255, 13, 10, 0, 0, 0, 0, 0, 0, 0, 0, 0] ∧
      (writeHeader e).length = 19 := by
  intro e
  cases e <;> exact ⟨by decide, by decide⟩

/-- C9 (amended): `parseString` stores the trimmed substring as the
payload but sets the `length` member to the extraction-length argument
`len` — an upper bound of, and in general different from, the payload's
byte length. -/
theorem parseString_length_member :
    ∀ (src : List Nat) (start len : Nat),
      parseString src start len
        = FieldV.textV (stripWhitespaceC ((src.drop start).take len)) (len : Int) ∧
      (stripWhitespaceC ((src.drop start).take len)).length ≤ len := by
  intro src start len
  refine ⟨rfl, ?_⟩
  calc (stripWhitespaceC ((src.drop start).take len)).length
      ≤ ((src.drop start).take len).length := stripC_length_le _
    _ ≤ len := by rw [List.length_take]; exact min_le_left _ _

/-- C9 counterexample: extracting `" a "` (3 bytes) stores payload `"a"`
(1 byte) with `length = 3 ≠ 1`. -/
theorem parseString_length_not_byte_count :
    parseString [32, 97, 32] 0 3 = FieldV.textV [97] 3 ∧
    (3 : Int) ≠ (([97] : List Nat).length : Int) := by
  decide

/-- C10: when the extracted substring trims to nothing, `parseString`
produces `Field{Text}` with the empty payload — never `Field{Null}` — and
the encoder then writes a zero length word with no payload bytes;
`Field{Null}` is reachable at this interface only through the magic-NULL
variant (here with the empty sentinel). -/
theorem parseString_empty_is_text :
    ∀ (src : List Nat) (start len : Nat) (e : Endian),
      copyString src start len = [] →
        parseString src start len = FieldV.textV [] (len : Int) ∧
        parseString src start len ≠ FieldV.nullV ∧
        writeText e [] = [0, 0, 0, 0] ∧
        parseStringWithMagicNULL src start len [] = FieldV.nullV := by
  intro src start len e h
  refine ⟨?_, ?_, ?_, ?_⟩
  · unfold parseString; rw [h]
  · unfold parseString; simp
  · cases e <;> decide
  · unfold parseStringWithMagicNULL; rw [if_pos h]

/-- C10 witness: the one-space substring `" "` parses to empty Text,
which encodes as the zero length word alone. -/
theorem parseString_empty_is_text_witness :
    parseString [32] 0 1 = FieldV.textV [] ((1 : Nat) : Int) ∧
    parseString [32] 0 1 ≠ FieldV.nullV ∧
    writeText Endian.little [] = [0, 0, 0, 0] ∧
    parseStringWithMagicNULL [32] 0 1 [] = FieldV.nullV :=
  parseString_empty_is_text [32] 0 1 Endian.little (by decide)

end Booster
